import Mathlib

/-!
Verification development for the flight-search repository.

The repository is a Next.js travel-booking app.  The pieces embedded here:

* the date normalizer `parseFlexibleDate` and the range splitting used by the
  chat component when a completed slot set is turned into a search request
  (src/src/ai/flows/flight-booking-assistant.ts, `handleSendMessage`);
* the duration parsing and flight ranking comparators of the results view
  (`sortedFlights`, `fastestFlight`, `bestFlight`, `cheapestFlight`);
* the POST /api/search-flights route handler (the flight lookup gateway);
* the retry/fallback logic of `flightBookingAssistantFlow`.

JavaScript strings are modelled over their character lists; the ASCII part of
`toLowerCase`, `toUpperCase`, `trim`, `\s` and `\d` is embedded (all inputs the
code manipulates are ASCII).  `new Date(...)` generic parsing is an opaque
environment capability and is passed in as an oracle returning the ISO day
string of `toISOString().split('T')[0]`, or `none` for an invalid date.
-/

namespace FlightApp

/-- ASCII digit test, the JS regex class `\d` (which is ASCII-only);
code points 48 to 57 are the digits. -/
def isDigitCh (c : Char) : Bool :=
  48 ≤ c.toNat && c.toNat ≤ 57

/-- ASCII whitespace recognized by the JS regex class `\s` and by trim:
space, tab, line feed, carriage return, vertical tab, form feed. -/
def isWsCh (c : Char) : Bool :=
  c.toNat = 32 || c.toNat = 9 || c.toNat = 10 || c.toNat = 13 ||
  c.toNat = 11 || c.toNat = 12

/-- ASCII lower-case letter test; code points 97 to 122. -/
def isLowerCh (c : Char) : Bool :=
  97 ≤ c.toNat && c.toNat ≤ 122

/-- ASCII case folding of one character, the ASCII part of JS toLowerCase;
code points 65 to 90 are the upper-case letters. -/
def lowerCh (c : Char) : Char :=
  if 65 ≤ c.toNat && c.toNat ≤ 90 then Char.ofNat (c.toNat + 32) else c

/-- ASCII upper casing of one character, the ASCII part of JS toUpperCase. -/
def upperCh (c : Char) : Char :=
  if 97 ≤ c.toNat && c.toNat ≤ 122 then Char.ofNat (c.toNat - 32) else c

/-- JS `String.prototype.toLowerCase` (ASCII fragment). -/
def lowerStr (s : String) : String :=
  ⟨s.data.map lowerCh⟩

/-- JS `String.prototype.toUpperCase` (ASCII fragment). -/
def upperStr (s : String) : String :=
  ⟨s.data.map upperCh⟩

/-- Strip leading whitespace. -/
def dropLeadWs (l : List Char) : List Char :=
  l.dropWhile isWsCh

/-- JS `String.prototype.trim`: strip leading and trailing whitespace. -/
def trimChars (l : List Char) : List Char :=
  ((l.dropWhile isWsCh).reverse.dropWhile isWsCh).reverse

/-- String-level trim. -/
def trimStr (s : String) : String :=
  ⟨trimChars s.data⟩

/-- Decide whether `p` is a prefix of `l` (JS startsWith on char lists). -/
def isPre : List Char → List Char → Bool
  | [], _ => true
  | _ :: _, [] => false
  | a :: p, b :: l => a = b && isPre p l

/-- Decide whether `p` occurs as a contiguous substring of `l`
(JS `String.prototype.includes`). -/
def hasSub : List Char → List Char → Bool
  | p, [] => isPre p []
  | p, l@(_ :: t) => isPre p l || hasSub p t

/-- JS `s.includes(pat)`. -/
def containsSub (s pat : String) : Bool :=
  hasSub pat.data s.data

/-- Numeric value of a digit character. -/
def digitVal (c : Char) : Nat :=
  c.toNat - 48

/-- Numeric value of a digit string; the empty string gives 0, which is the
value `parseInt(s) || 0` takes in the ranking code when a capture group is
empty (`parseInt("")` is NaN, and `NaN || 0` is 0). -/
def digitsVal (l : List Char) : Nat :=
  l.foldl (fun acc c => acc * 10 + digitVal c) 0

/-- JS `padStart(2, '0')` as used on the day capture of the date normalizer. -/
def padStart2 (s : String) : String :=
  if s.length ≥ 2 then s else ⟨'0' :: s.data⟩

/-- JS `slice(0, 3)` on a string. -/
def slice3 (s : String) : String :=
  ⟨s.data.take 3⟩

/-! ### Date normalizer (`parseFlexibleDate` in `handleSendMessage`)

The source first lower-cases and trims the input, returns it if it matches
the anchored regex of a 4-digit year, 2-digit month, 2-digit day separated by
hyphens, otherwise matches the anchored month-name regex, otherwise falls back
to generic `new Date` parsing, otherwise returns the input unchanged. -/

/-- Test of the anchored JS regex of four digits, a hyphen, two digits, a
hyphen and two digits (the already-normalized ISO shape). -/
def matchIso : List Char → Bool
  | [a, b, c, d, e, f, g, h, i, j] =>
    isDigitCh a && isDigitCh b && isDigitCh c && isDigitCh d && e = '-' &&
    isDigitCh f && isDigitCh g && h = '-' && isDigitCh i && isDigitCh j
  | _ => false

/-- The month alternatives of the month-name regex paired with the value the
`monthMap` table of the source assigns to them, in the exact alternation
order of the regex (3-letter form before the full name of each month). -/
def monthTable : List (String × String) :=
  [("jan", "01"), ("january", "01"),
   ("feb", "02"), ("february", "02"),
   ("mar", "03"), ("march", "03"),
   ("apr", "04"), ("april", "04"),
   ("may", "05"),
   ("jun", "06"), ("june", "06"),
   ("jul", "07"), ("july", "07"),
   ("aug", "08"), ("august", "08"),
   ("sep", "09"), ("september", "09"),
   ("oct", "10"), ("october", "10"),
   ("nov", "11"), ("november", "11"),
   ("dec", "12"), ("december", "12")]

/-- The optional ordinal suffix group followed by the end anchor: the rest of
the input must be empty or exactly one of st, nd, rd, th. -/
def ordSufOk (l : List Char) : Bool :=
  l = [] || l = ['s', 't'] || l = ['n', 'd'] || l = ['r', 'd'] || l = ['t', 'h']

/-- Continuation of the month-name regex after a month alternative: optional
whitespace, one or two digits of day (captured), optional ordinal suffix,
end of input.  Maximal-munch spans are exact here because a digit is never
whitespace, a suffix letter is never a digit, and backtracking the day from
two digits to one always leaves a digit in front of the suffix group. -/
def dayCont (l : List Char) : Option (List Char) :=
  let r := l.dropWhile isWsCh
  let ds := r.takeWhile isDigitCh
  let rest := r.dropWhile isDigitCh
  if (ds.length = 1 || ds.length = 2) && ordSufOk rest then some ds else none

/-- Try one month alternative of the regex at the start of the input. -/
def tryAlt (s : List Char) (e : String × String) : Option (String × List Char) :=
  if isPre e.1.data s then
    (dayCont (s.drop e.1.data.length)).map (fun ds => (e.2, ds))
  else none

/-- The anchored month-name regex of the source: the alternatives are tried
in alternation order and the first one whose continuation also succeeds
yields the mapped month number and the day capture. -/
def matchMonthDay (s : String) : Option (String × List Char) :=
  monthTable.findSome? (tryAlt s.data)

/-- The date normalizer of `handleSendMessage`.  `year` is the value of
`new Date().getFullYear()` and `jsDate` is the opaque generic date parser of
the environment: `jsDate t` is the ISO day string of
`new Date(t).toISOString().split('T')[0]`, or `none` when `new Date(t)` is an
invalid date.  The generic parse is attempted on the original `dateStr`, not
on the cleaned string, exactly as in the source. -/
def parseFlexibleDate (year : Nat) (jsDate : String → Option String)
    (dateStr : String) : String :=
  let cleanStr := trimStr (lowerStr dateStr)
  if matchIso cleanStr.data then cleanStr
  else
    match matchMonthDay cleanStr with
    | some (mm, ds) => toString year ++ "-" ++ mm ++ "-" ++ padStart2 ⟨ds⟩
    | none =>
      match jsDate dateStr with
      | some iso => iso
      | none => dateStr

/-- Modelled from the spec: a "valid ISO calendar date" is a string of shape
year-month-day whose month is between 01 and 12 and whose day is between 1
and the length of that month in that year (Gregorian leap rule).  This is a
claim-side definition used to compare the spec's safety guarantee with what
`parseFlexibleDate` actually returns. -/
def specValidIsoDate (s : String) : Bool :=
  match s.data with
  | [a, b, c, d, '-', f, g, '-', i, j] =>
    if isDigitCh a && isDigitCh b && isDigitCh c && isDigitCh d &&
       isDigitCh f && isDigitCh g && isDigitCh i && isDigitCh j then
      let y := digitsVal [a, b, c, d]
      let m := digitsVal [f, g]
      let dd := digitsVal [i, j]
      let leap : Bool := (y % 4 = 0 && y % 100 ≠ 0) || y % 400 = 0
      let dim : Nat :=
        if m = 1 || m = 3 || m = 5 || m = 7 || m = 8 || m = 10 || m = 12 then 31
        else if m = 4 || m = 6 || m = 9 || m = 11 then 30
        else if leap then 29 else 28
      1 ≤ m && m ≤ 12 && 1 ≤ dd && dd ≤ dim
    else false
  | _ => false

/-! ### Range splitting (`handleSendMessage`)

The source checks `dates` for the connector substrings " to ", " through "
and "-", and if present splits it with the regex that matches either
whitespace, "to" or "through", whitespace — or optional whitespace, a
hyphen, optional whitespace.  `String.prototype.split` with a regex splits on
every occurrence; only a result of exactly two parts produces a round trip. -/

/-- Try the connector regex at the start of `l`; on success return the length
of the match.  The first alternative (whitespace, "to" or "through",
whitespace) is preferred over the second (optional whitespace, hyphen,
optional whitespace), and within the first the shorter word "to" is tried
before "through", exactly as in the regex alternation.  Maximal whitespace
runs are exact because neither a connector word letter nor a hyphen is
whitespace. -/
def connAt (l : List Char) : Option Nat :=
  let ws := l.takeWhile isWsCh
  let r := l.dropWhile isWsCh
  let alt1 : Option Nat :=
    if ws.length = 0 then none
    else
      let word : Option Nat :=
        if isPre ['t', 'o'] r then
          let r2 := r.drop 2
          if (r2.takeWhile isWsCh).length ≥ 1 then
            some (2 + (r2.takeWhile isWsCh).length)
          else none
        else none
      match word with
      | some n => some (ws.length + n)
      | none =>
        if isPre ['t', 'h', 'r', 'o', 'u', 'g', 'h'] r then
          let r2 := r.drop 7
          if (r2.takeWhile isWsCh).length ≥ 1 then
            some (ws.length + 7 + (r2.takeWhile isWsCh).length)
          else none
        else none
  match alt1 with
  | some n => some n
  | none =>
    match r with
    | '-' :: r2 => some (ws.length + 1 + (r2.takeWhile isWsCh).length)
    | _ => none

/-- Position and length of the leftmost match of the connector regex. -/
def findConn : List Char → Option (Nat × Nat)
  | [] => none
  | c :: t =>
    match connAt (c :: t) with
    | some n => some (0, n)
    | none => (findConn t).map (fun p => (p.1 + 1, p.2))

/-- Split on every occurrence of the connector regex, left to right, as
`String.prototype.split` does.  `fuel` only certifies termination; every
match is nonempty, so `l.length` steps always suffice. -/
def splitConnLoop : Nat → List Char → List (List Char)
  | 0, l => [l]
  | fuel + 1, l =>
    match findConn l with
    | none => [l]
    | some (i, n) => l.take i :: splitConnLoop fuel (l.drop (i + n))

/-- JS `dates.split` on the connector regex. -/
def splitConn (s : String) : List String :=
  (splitConnLoop s.data.length s.data).map (fun l => ⟨l⟩)

/-- The connector presence test of the source:
`dates.includes(' to ') || dates.includes(' through ') || dates.includes('-')`. -/
def hasConnector (dates : String) : Bool :=
  containsSub dates " to " || containsSub dates " through " || containsSub dates "-"

/-- The date-resolution block of `handleSendMessage`: returns the departure
date and the optional return date.  When a connector is present the string
is split on every connector occurrence; exactly two parts are each trimmed
and normalized; any other number of parts leaves the raw `dates` string as
the departure date with no return date.  With no connector the whole string
is normalized as the departure date. -/
def resolveDates (year : Nat) (jsDate : String → Option String)
    (dates : String) : String × Option String :=
  if hasConnector dates then
    match splitConn dates with
    | [a, b] =>
      (parseFlexibleDate year jsDate (trimStr a),
       some (parseFlexibleDate year jsDate (trimStr b)))
    | _ => (dates, none)
  else (parseFlexibleDate year jsDate dates, none)

/-- Modelled from the spec: "split into exactly two parts on the first
occurrence of any connector; each part is normalized independently".  This
claim-side variant splits only at the leftmost connector match and always
normalizes both resulting parts. -/
def resolveDatesSpecFirstSplit (year : Nat) (jsDate : String → Option String)
    (dates : String) : String × Option String :=
  if hasConnector dates then
    match findConn dates.data with
    | some (i, n) =>
      (parseFlexibleDate year jsDate (trimStr ⟨dates.data.take i⟩),
       some (parseFlexibleDate year jsDate (trimStr ⟨dates.data.drop (i + n)⟩)))
    | none => (parseFlexibleDate year jsDate dates, none)
  else (parseFlexibleDate year jsDate dates, none)

/-! ### Duration parsing and flight ranking (`flight-results-view`)

The ranking code computes, for each flight, the first match of the regex of
one-or-more digits, an "h", optional whitespace, zero-or-more digits and an
"m"; the two captures are converted with `parseInt(s) || 0` and combined as
hours times 60 plus minutes.  A flight whose duration does not contain the
pattern contributes 0 minutes. -/

/-- Try the duration regex at the start of `l`, returning the two digit
captures.  Maximal-munch spans are exact: "h" and "m" are not digits and not
whitespace, so the greedy quantifiers never backtrack productively. -/
def durAt (l : List Char) : Option (List Char × List Char) :=
  let hs := l.takeWhile isDigitCh
  if hs.length = 0 then none
  else
    match l.dropWhile isDigitCh with
    | 'h' :: r =>
      let r1 := r.dropWhile isWsCh
      let ms := r1.takeWhile isDigitCh
      match r1.dropWhile isDigitCh with
      | 'm' :: _ => some (hs, ms)
      | _ => none
    | _ => none

/-- First match of the duration regex anywhere in the string (JS
`String.prototype.match` without the global flag scans left to right). -/
def durMatch : List Char → Option (List Char × List Char)
  | [] => none
  | c :: t =>
    match durAt (c :: t) with
    | some g => some g
    | none => durMatch t

/-- Total minutes of a duration string: hours times 60 plus minutes on a
match, and 0 when the regex does not match (the `|| []` fallback of the
source reduces the fold to its initial accumulator 0). -/
def durationMinutes (s : String) : Nat :=
  match durMatch s.data with
  | some (hs, ms) => digitsVal hs * 60 + digitsVal ms
  | none => 0

/-- The fields of a flight offer the ranking logic reads.  A `FlightOffer`
also carries provider, stop details, legs and airport endpoints; none of
those influence the comparators, so they are not repeated here. -/
structure Flight where
  id : String
  provider : String
  price : Int
  duration : String
  stops : Nat
deriving DecidableEq

/-- The three ranking modes of the results view tabs. -/
inductive SortMode
  | best
  | cheapest
  | fastest
deriving DecidableEq

/-- The sort key each comparator of `sortedFlights` compares: price for
cheapest, total duration minutes for fastest, and price over two plus the
duration minutes for best.  The comparator subtracts the two keys, so the
induced order is ascending by key. -/
def keyFn : SortMode → Flight → ℚ
  | .cheapest, f => (f.price : ℚ)
  | .fastest, f => (durationMinutes f.duration : ℚ)
  | .best, f => (f.price : ℚ) / 2 + (durationMinutes f.duration : ℚ)

/-- Comparison by a numeric sort key: the order a JS comparator that
subtracts the two keys induces. -/
def keyRel {α : Type} (key : α → ℚ) (a b : α) : Prop :=
  key a ≤ key b

instance {α : Type} (key : α → ℚ) : DecidableRel (keyRel key) :=
  fun a b => inferInstanceAs (Decidable (key a ≤ key b))

instance {α : Type} (key : α → ℚ) : IsTotal α (keyRel key) :=
  ⟨fun a b => le_total (key a) (key b)⟩

instance {α : Type} (key : α → ℚ) : IsTrans α (keyRel key) :=
  ⟨fun _ _ _ => le_trans⟩

/-- The `sortedFlights` computation: `[...flights].sort(comparator)`.
`Array.prototype.sort` is required to be stable since ES2019 and the
comparator subtracts numeric keys, so the result is the unique stable sort
by that key; insertion sort realizes it. -/
def sortFlights (m : SortMode) (fs : List Flight) : List Flight :=
  fs.insertionSort (keyRel (keyFn m))

/-- Offer A of the ranking-stability example: price 600, duration 10h. -/
def flightA : Flight :=
  { id := "A", provider := "P1", price := 600, duration := "10h 00m", stops := 1 }

/-- Offer B of the ranking-stability example: price 600, duration 8h. -/
def flightB : Flight :=
  { id := "B", provider := "P2", price := 600, duration := "8h 00m", stops := 1 }

/-- Offer of the best-ranking example with score 800 / 2 + 300 = 700. -/
def flightC : Flight :=
  { id := "C", provider := "P3", price := 800, duration := "5h 00m", stops := 0 }

/-- Offer of the best-ranking example with score 400 / 2 + 1200 = 1400. -/
def flightD : Flight :=
  { id := "D", provider := "P4", price := 400, duration := "20h 00m", stops := 2 }

/-! ### The flight lookup gateway: POST /api/search-flights

The route handler validates the body, spawns the Python scraper, and
normalizes whatever comes back.  The scraper interaction resolves in one of
three ways, modelled by `LookupOutcome`:

* the spawn itself errors, in which case the promise is resolved with the
  literal JSON text of an empty flights list and an error annotation;
* the process exits nonzero, in which case the promise rejects and the outer
  catch answers 500;
* the process exits zero and its stdout is parsed with `JSON.parse`,
  modelled as `Option Json` (`none` when parsing throws).

Property access `finalResults.flights` throws on `null` (caught by the outer
catch, yielding 500), yields the last binding on an object, and `undefined`
on any other JSON value; that is `jsGet` below. -/

/-- JSON values, the possible results of `JSON.parse`. -/
inductive Json
  | null
  | bool (b : Bool)
  | num (n : Int)
  | str (s : String)
  | arr (elems : List Json)
  | obj (fields : List (String × Json))

/-- Last binding of a key in an object's field list: `JSON.parse` keeps the
last of duplicate keys, and later assignments win in object literals. -/
def getLast (k : String) : List (String × Json) → Option Json
  | [] => none
  | (k2, v) :: t =>
    match getLast k t with
    | some v2 => some v2
    | none => if k2 = k then some v else none

/-- JS property read `j[k]`: `none` when the access throws (on `null`),
`some none` when the property is `undefined`, `some (some v)` otherwise. -/
def jsGet (j : Json) (k : String) : Option (Option Json) :=
  match j with
  | .null => none
  | .obj fields => some (getLast k fields)
  | _ => some none

/-- JS truthiness of a JSON value. -/
def truthy : Json → Bool
  | .null => false
  | .bool b => b
  | .num n => n ≠ 0
  | .str s => s ≠ ""
  | .arr _ => true
  | .obj _ => true

/-- Truthiness of a possibly-undefined property (`undefined` is falsy). -/
def truthyOpt : Option Json → Bool
  | none => false
  | some v => truthy v

/-- `Array.isArray` on a possibly-undefined property. -/
def isArrOpt : Option Json → Bool
  | some (.arr _) => true
  | _ => false

/-- Field access on a response body: the field list lookup when the body is
an object, nothing otherwise. -/
def bodyGet (k : String) (j : Json) : Option Json :=
  match j with
  | .obj fields => getLast k fields
  | _ => none

/-- How the scraper invocation resolves, as seen by the route handler. -/
inductive LookupOutcome
  | startFailed
  | exitNonzero
  | parsedOutput (parse : Option Json)

/-- The JSON value of the literal fallback text the spawn error handler
resolves with: an empty flights list and the error annotation
"Python environment not available". -/
def spawnFallback : Json :=
  .obj [("flights", .arr []), ("error", .str "Python environment not available")]

/-- The `search_params` echo object.  `NextResponse.json` drops properties
whose value is `undefined`, so absent returnDate and passengers are omitted. -/
def searchParams (o d dep : String) (ret : Option String) (p : Option Nat) : Json :=
  .obj ([("origin", .str o), ("destination", .str d), ("departureDate", .str dep)]
    ++ (match ret with | some r => [("returnDate", Json.str r)] | none => [])
    ++ (match p with | some n => [("passengers", Json.num n)] | none => []))

/-- The single demo offer the parse-failure fallback fabricates, with the
airport codes sliced and upper-cased from the request's origin and
destination. -/
def mockFlight (o d : String) : Json :=
  .obj [("id", .str "api_1"),
        ("provider", .str "Live Search Demo"),
        ("airline", .str "Demo Airlines"),
        ("price", .num 650),
        ("duration", .str "14h 30m"),
        ("stops", .num 1),
        ("stopDetails", .str "1 stop"),
        ("from", .obj [("code", .str (upperStr (slice3 o))), ("time", .str "10:30"),
                       ("airport", .str o)]),
        ("to", .obj [("code", .str (upperStr (slice3 d))), ("time", .str "09:00"),
                     ("airport", .str d)]),
        ("legs", .arr [.obj [("airline", .str "Demo Airlines"),
                             ("airlineLogoUrl", .str "https://picsum.photos/40/40?random=99"),
                             ("departureTime", .str "10:30"),
                             ("arrivalTime", .str "09:00"),
                             ("duration", .str "14h 30m"),
                             ("stops", .str "1 stop"),
                             ("fromCode", .str (upperStr (slice3 o))),
                             ("toCode", .str (upperStr (slice3 d)))]])]

/-- The demo fallback body built when the scraper's stdout fails to parse. -/
def demoBody (o d dep : String) (ret : Option String) (p : Option Nat) : Json :=
  .obj [("flights", .arr [mockFlight o d]),
        ("total_results", .num 1),
        ("search_params", searchParams o d dep ret p),
        ("note", .str "Demo results - real flight search is being configured")]

/-- The re-wrap of a parsed value whose flights field is missing or not an
array: a bare array becomes the offers, anything else becomes zero offers,
and total_results counts the offers. -/
def rewrapBody (j : Json) (o d dep : String) (ret : Option String)
    (p : Option Nat) : Json :=
  .obj [("flights", match j with | .arr xs => .arr xs | _ => .arr []),
        ("total_results", match j with | .arr xs => .num xs.length | _ => .num 0),
        ("search_params", searchParams o d dep ret p)]

/-- The 400 response of the parameter validation. -/
def resp400 : Nat × Json :=
  (400, .obj [("error", .str "Missing required parameters: origin, destination, departureDate")])

/-- The 500 response of the outer catch. -/
def resp500 : Nat × Json :=
  (500, .obj [("error", .str "Internal server error"), ("flights", .arr [])])

/-- Normalization of a successfully parsed value: keep it when its flights
property is a truthy array, answer 500 when the property read throws (the
value is `null`), and re-wrap otherwise. -/
def normalizeParsed (j : Json) (o d dep : String) (ret : Option String)
    (p : Option Nat) : Nat × Json :=
  match jsGet j "flights" with
  | none => resp500
  | some fv =>
    if truthyOpt fv && isArrOpt fv then (200, j)
    else (200, rewrapBody j o d dep ret p)

/-- The POST /api/search-flights handler.  `origin`, `destination` and
`departureDate` are the body fields (absent or string); a missing or empty
one fails the JS truthiness guard and yields 400 before the scraper is
consulted. -/
def handlePost (origin destination departureDate : Option String)
    (ret : Option String) (p : Option Nat) (lk : LookupOutcome) : Nat × Json :=
  match origin, destination, departureDate with
  | some o, some d, some dep =>
    if o = "" || d = "" || dep = "" then resp400
    else
      match lk with
      | .startFailed => normalizeParsed spawnFallback o d dep ret p
      | .exitNonzero => resp500
      | .parsedOutput none => (200, demoBody o d dep ret p)
      | .parsedOutput (some j) => normalizeParsed j o d dep ret p
  | _, _, _ => resp400

/-! ### The dialogue engine's retry and fallback (`flightBookingAssistantFlow`)

The flow calls the completion prompt up to `maxRetries = 2` times.  A failure
with status 429, 401 or 403 breaks out of the loop immediately; any other
failure on the first attempt is retried once.  After the loop the last error
is classified and a fixed apology reply is returned with
`isFlightDetailsComplete` false. -/

/-- The extracted slots of a completed reply. -/
structure FlightDetails where
  destination : Option String
  origin : Option String
  dates : Option String
  passengers : Option Nat
deriving DecidableEq

/-- The structured output of the completion prompt. -/
structure FlowOutput where
  reply : String
  isFlightDetailsComplete : Bool
  flightDetails : Option FlightDetails
deriving DecidableEq

/-- An error thrown by the completion service: an optional numeric status
and a message. -/
structure CompErr where
  status : Option Nat
  message : String
deriving DecidableEq

/-- One completion attempt either resolves with an output or throws. -/
inductive CallResult
  | ok (out : FlowOutput)
  | err (e : CompErr)

/-- The fail-fast test of the loop:
`error?.status === 429 || error?.status === 401 || error?.status === 403`. -/
def failFast (e : CompErr) : Bool :=
  e.status = some 429 || e.status = some 401 || e.status = some 403

/-- The four failure classes the post-loop classification distinguishes. -/
inductive FailClass
  | overloaded
  | quotaExceeded
  | authFailed
  | other
deriving DecidableEq

/-- Classification of the last error, in the order of the source's if
chain: overload (status 503 or an "overloaded" message) first, then quota
(status 429 or a "quota" message), then auth (status 401 or 403), then the
generic fallback. -/
def classifyErr (e : CompErr) : FailClass :=
  if e.status = some 503 || containsSub e.message "overloaded" then .overloaded
  else if e.status = some 429 || containsSub e.message "quota" then .quotaExceeded
  else if e.status = some 401 || e.status = some 403 then .authFailed
  else .other

/-- The fixed apology reply of each failure class. -/
def classReply : FailClass → String
  | .overloaded =>
    "🤖 Google\x27s AI service is experiencing high demand right now. Please try again in a moment.\n\n✈️ Good news: Flight search is still working perfectly! You can search for flights while the AI recovers."
  | .quotaExceeded =>
    "📊 I\x27ve reached my API usage limit for now. Please try again in a few minutes.\n\n✈️ Flight search is still available while we wait!"
  | .authFailed =>
    "🔑 There\x27s an API authentication issue. Please check your Google AI API key configuration.\n\n✈️ Flight search functionality is still working!"
  | .other =>
    "⚡ I encountered a temporary issue, but I\x27m still here to help!\n\n✈️ Flight search is working perfectly - please try searching for flights!"

/-- The fallback output built after the loop: the classified apology with
`isFlightDetailsComplete` false and no flight details. -/
def fallbackOutput (e : CompErr) : FlowOutput :=
  { reply := classReply (classifyErr e)
    isFlightDetailsComplete := false
    flightDetails := none }

/-- The retry loop of `flightBookingAssistantFlow` over an oracle giving the
result of each numbered attempt: return the first successful output; stop
retrying on a fail-fast status; otherwise attempt twice and fall back on the
last error. -/
def runFlow (call : Nat → CallResult) : FlowOutput :=
  match call 1 with
  | .ok o => o
  | .err e1 =>
    if failFast e1 then fallbackOutput e1
    else
      match call 2 with
      | .ok o => o
      | .err e2 => fallbackOutput e2

/-- How many completion attempts the loop makes against the oracle. -/
def numAttempts (call : Nat → CallResult) : Nat :=
  match call 1 with
  | .ok _ => 1
  | .err e1 => if failFast e1 then 1 else 2

/-! ## Helper lemmas -/

theorem digit_not_ws {c : Char} (h : isDigitCh c = true) : isWsCh c = false := by
  simp only [isDigitCh, Bool.and_eq_true, decide_eq_true_eq] at h
  simp only [isWsCh, Bool.or_eq_false_iff, decide_eq_false_iff_not]
  omega

theorem lower_not_ws {c : Char} (h : isLowerCh c = true) : isWsCh c = false := by
  simp only [isLowerCh, Bool.and_eq_true, decide_eq_true_eq] at h
  simp only [isWsCh, Bool.or_eq_false_iff, decide_eq_false_iff_not]
  omega

theorem lower_not_digit {c : Char} (h : isLowerCh c = true) : isDigitCh c = false := by
  simp only [isLowerCh, Bool.and_eq_true, decide_eq_true_eq] at h
  simp only [isDigitCh, Bool.and_eq_false_iff, decide_eq_false_iff_not]
  omega

theorem lowerCh_digit {c : Char} (h : isDigitCh c = true) : lowerCh c = c := by
  simp only [isDigitCh, Bool.and_eq_true, decide_eq_true_eq] at h
  simp only [lowerCh, ite_eq_right_iff, Bool.and_eq_true, decide_eq_true_eq]
  omega

theorem lowerCh_lower {c : Char} (h : isLowerCh c = true) : lowerCh c = c := by
  simp only [isLowerCh, Bool.and_eq_true, decide_eq_true_eq] at h
  simp only [lowerCh, ite_eq_right_iff, Bool.and_eq_true, decide_eq_true_eq]
  omega

theorem takeWhile_app_all {p : Char → Bool} {a : List Char} (l : List Char)
    (h : ∀ c ∈ a, p c = true) : (a ++ l).takeWhile p = a ++ l.takeWhile p := by
  induction a with
  | nil => rfl
  | cons c t ih =>
    simp only [List.cons_append, List.takeWhile_cons,
      h c (List.mem_cons_self c t), if_true,
      ih fun x hx => h x (List.mem_cons_of_mem c hx)]

theorem dropWhile_app_all {p : Char → Bool} {a : List Char} (l : List Char)
    (h : ∀ c ∈ a, p c = true) : (a ++ l).dropWhile p = l.dropWhile p := by
  induction a with
  | nil => rfl
  | cons c t ih =>
    simp only [List.cons_append, List.dropWhile_cons,
      h c (List.mem_cons_self c t), if_true, ih fun x hx => h x (List.mem_cons_of_mem c hx)]

theorem takeWhile_cons_neg {p : Char → Bool} {c : Char} (l : List Char)
    (h : p c = false) : (c :: l).takeWhile p = [] := by
  simp [List.takeWhile_cons, h]

theorem dropWhile_cons_neg {p : Char → Bool} {c : Char} (l : List Char)
    (h : p c = false) : (c :: l).dropWhile p = c :: l := by
  simp [List.dropWhile_cons, h]

/-- The duration regex matches at the start of a string shaped as digits,
an "h", whitespace, digits, an "m", capturing the two digit groups. -/
theorem durAt_pattern (hs ws ms rest : List Char) (hhs : hs ≠ [])
    (h1 : ∀ c ∈ hs, isDigitCh c = true) (h2 : ∀ c ∈ ws, isWsCh c = true)
    (h3 : ∀ c ∈ ms, isDigitCh c = true) :
    durAt (hs ++ 'h' :: (ws ++ (ms ++ 'm' :: rest))) = some (hs, ms) := by
  have htw : (hs ++ 'h' :: (ws ++ (ms ++ 'm' :: rest))).takeWhile isDigitCh = hs := by
    rw [takeWhile_app_all _ h1, takeWhile_cons_neg _ (by decide), List.append_nil]
  have hdw : (hs ++ 'h' :: (ws ++ (ms ++ 'm' :: rest))).dropWhile isDigitCh
      = 'h' :: (ws ++ (ms ++ 'm' :: rest)) := by
    rw [dropWhile_app_all _ h1, dropWhile_cons_neg _ (by decide)]
  have hdw2 : (ws ++ (ms ++ 'm' :: rest)).dropWhile isWsCh = ms ++ 'm' :: rest := by
    rw [dropWhile_app_all _ h2]
    cases ms with
    | nil => exact dropWhile_cons_neg _ (by decide)
    | cons c t =>
      exact dropWhile_cons_neg _ (digit_not_ws (h3 c (List.mem_cons_self c t)))
  have htw3 : (ms ++ 'm' :: rest).takeWhile isDigitCh = ms := by
    rw [takeWhile_app_all _ h3, takeWhile_cons_neg _ (by decide), List.append_nil]
  have hdw3 : (ms ++ 'm' :: rest).dropWhile isDigitCh = 'm' :: rest := by
    rw [dropWhile_app_all _ h3, dropWhile_cons_neg _ (by decide)]
  unfold durAt
  rw [htw, hdw]
  simp only [List.length_eq_zero, hhs, if_false, hdw2, htw3, hdw3]

/-- A string whose head position matches the duration regex yields those
captures as the first match. -/
theorem durMatch_head {s : List Char} {g : List Char × List Char}
    (hne : s ≠ []) (h : durAt s = some g) : durMatch s = some g := by
  cases s with
  | nil => exact absurd rfl hne
  | cons c t => unfold durMatch; rw [h]

/-- Inserting an element whose key equals `k` places it in front of every
element of equal key, so the key-`k` subsequence gains it at the front. -/
theorem filter_orderedInsert_key_eq {α : Type} (key : α → ℚ) {x : α} {k : ℚ}
    (hx : key x = k) : ∀ l : List α,
    (l.orderedInsert (keyRel key) x).filter (fun y => decide (key y = k))
      = x :: l.filter (fun y => decide (key y = k))
  | [] => by simp [List.orderedInsert, hx]
  | y :: t => by
    rw [List.orderedInsert]
    by_cases hle : keyRel key x y
    · rw [if_pos hle]
      simp [List.filter_cons, hx]
    · rw [if_neg hle]
      have hy : decide (key y = k) = false :=
        decide_eq_false fun hk => hle (le_of_eq (hx.trans hk.symm))
      simp only [List.filter_cons, hy, if_false, Bool.false_eq_true,
        filter_orderedInsert_key_eq key hx t]

/-- Inserting an element whose key differs from `k` leaves the key-`k`
subsequence unchanged. -/
theorem filter_orderedInsert_key_ne {α : Type} (key : α → ℚ) {x : α} {k : ℚ}
    (hx : key x ≠ k) : ∀ l : List α,
    (l.orderedInsert (keyRel key) x).filter (fun y => decide (key y = k))
      = l.filter (fun y => decide (key y = k))
  | [] => by simp [List.orderedInsert, hx]
  | y :: t => by
    rw [List.orderedInsert]
    by_cases hle : keyRel key x y
    · rw [if_pos hle]
      simp [List.filter_cons, hx]
    · rw [if_neg hle]
      simp only [List.filter_cons, filter_orderedInsert_key_ne key hx t]

/-- Stability of insertion sort by a numeric key: for every key value the
subsequence of elements carrying that key is preserved, i.e. ties keep
their original relative order. -/
theorem filter_insertionSort_key {α : Type} (key : α → ℚ) (k : ℚ) :
    ∀ l : List α,
    (l.insertionSort (keyRel key)).filter (fun y => decide (key y = k))
      = l.filter (fun y => decide (key y = k))
  | [] => rfl
  | x :: t => by
    rw [List.insertionSort]
    by_cases hx : key x = k
    · rw [filter_orderedInsert_key_eq key hx, filter_insertionSort_key key k t]
      simp [List.filter_cons, hx]
    · rw [filter_orderedInsert_key_ne key hx, filter_insertionSort_key key k t]
      simp [List.filter_cons, hx]

/-- A list of length 4 is a four-element list. -/
theorem list_len4 {l : List Char} (h : l.length = 4) :
    ∃ a b c d, l = [a, b, c, d] := by
  rcases l with _ | ⟨a, _ | ⟨b, _ | ⟨c, _ | ⟨d, _ | ⟨e, t⟩⟩⟩⟩⟩ <;>
    simp only [List.length] at h <;> try omega
  exact ⟨a, b, c, d, rfl⟩

/-- A list of length 2 is a two-element list. -/
theorem list_len2 {l : List Char} (h : l.length = 2) :
    ∃ a b, l = [a, b] := by
  rcases l with _ | ⟨a, _ | ⟨b, _ | ⟨c, t⟩⟩⟩ <;>
    simp only [List.length] at h <;> try omega
  exact ⟨a, b, rfl⟩

/-- A successful month-name match yields a two-digit month string from the
table and a day capture of one or two digit characters. -/
theorem matchMonthDay_props {s mm : String} {ds : List Char}
    (h : matchMonthDay s = some (mm, ds)) :
    (mm.data.length = 2 ∧ ∀ c ∈ mm.data, isDigitCh c = true)
    ∧ (ds.length = 1 ∨ ds.length = 2) ∧ (∀ c ∈ ds, isDigitCh c = true) := by
  obtain ⟨e, he, hte⟩ := List.exists_of_findSome?_eq_some h
  unfold tryAlt at hte
  split at hte
  · rcases hdc : dayCont (s.data.drop e.1.data.length) with _ | ds2
    · rw [hdc] at hte
      exact absurd hte (by simp)
    · rw [hdc] at hte
      simp only [Option.map_some', Option.some.injEq, Prod.mk.injEq] at hte
      obtain ⟨hmm, hds⟩ := hte
      subst hmm
      unfold dayCont at hdc
      dsimp only at hdc
      split at hdc
      · simp only [Option.some.injEq] at hdc
        subst hdc
        rename_i hcond
        simp only [Bool.and_eq_true, Bool.or_eq_true, decide_eq_true_eq] at hcond
        subst hds
        refine ⟨?_, ?_, fun c hc => List.mem_takeWhile_imp hc⟩
        · have : ∀ p ∈ monthTable, p.2.data.length = 2
              ∧ ∀ c ∈ p.2.data, isDigitCh c = true := by decide
          exact this e he
        · exact hcond.1
      · exact absurd hdc (by simp)
  · exact absurd hte (by simp)

/-- The month-branch result of the date normalizer matches the ISO shape
whenever the rendered year has four digit characters. -/
theorem month_result_iso {y : Nat} {mm : String} {ds : List Char}
    (hy : (toString y).data.length = 4 ∧ ∀ c ∈ (toString y).data, isDigitCh c = true)
    (hmm : mm.data.length = 2 ∧ ∀ c ∈ mm.data, isDigitCh c = true)
    (hds : (ds.length = 1 ∨ ds.length = 2) ∧ ∀ c ∈ ds, isDigitCh c = true) :
    matchIso (toString y ++ "-" ++ mm ++ "-" ++ padStart2 ⟨ds⟩).data = true := by
  obtain ⟨y1, y2, y3, y4, hy4⟩ := list_len4 hy.1
  obtain ⟨m1, m2, hm2⟩ := list_len2 hmm.1
  have hyd := hy.2
  have hmd := hmm.2
  rw [hy4] at hyd
  rw [hm2] at hmd
  obtain ⟨d1, d2, hpd⟩ : ∃ d1 d2, (padStart2 ⟨ds⟩).data = [d1, d2]
      ∧ isDigitCh d1 = true ∧ isDigitCh d2 = true := by
    rcases hds.1 with h1 | h2
    · obtain ⟨a, ha⟩ : ∃ a, ds = [a] := by
        rcases ds with _ | ⟨a, _ | ⟨b, t⟩⟩ <;> simp only [List.length] at h1 <;>
          try omega
        exact ⟨a, rfl⟩
      refine ⟨'0', a, ?_, by decide, hds.2 a (ha ▸ List.mem_singleton_self a)⟩
      subst ha
      rfl
    · obtain ⟨a, b, hab⟩ := list_len2 h2
      refine ⟨a, b, ?_, hds.2 a (hab ▸ List.mem_cons_self a [b]),
        hds.2 b (hab ▸ List.mem_cons_of_mem a (List.mem_singleton_self b))⟩
      subst hab
      rw [padStart2, if_pos (by simp)]
  have hdata : (toString y ++ "-" ++ mm ++ "-" ++ padStart2 ⟨ds⟩).data
      = [y1, y2, y3, y4, '-', m1, m2, '-', d1, d2] := by
    simp only [String.data_append, hy4, hm2, hpd.1]
    rfl
  rw [hdata]
  simp [matchIso, hyd y1 (by simp), hyd y2 (by simp), hyd y3 (by simp),
    hyd y4 (by simp), hmd m1 (by simp), hmd m2 (by simp), hpd.2.1, hpd.2.2]

theorem ws_not_lower {c : Char} (h : isWsCh c = true) : isLowerCh c = false := by
  simp only [isWsCh, Bool.or_eq_true, decide_eq_true_eq] at h
  simp only [isLowerCh, Bool.and_eq_false_iff, decide_eq_false_iff_not]
  omega

theorem digit_not_lower {c : Char} (h : isDigitCh c = true) : isLowerCh c = false := by
  simp only [isDigitCh, Bool.and_eq_true, decide_eq_true_eq] at h
  simp only [isLowerCh, Bool.and_eq_false_iff, decide_eq_false_iff_not]
  omega

theorem isPre_iff {a l : List Char} : isPre a l = true ↔ ∃ r, l = a ++ r := by
  induction a generalizing l with
  | nil => simp [isPre]
  | cons c t ih =>
    cases l with
    | nil => simp [isPre]
    | cons x xs =>
      simp only [isPre, Bool.and_eq_true, decide_eq_true_eq, ih, List.cons_append,
        List.cons.injEq]
      constructor
      · rintro ⟨rfl, r, rfl⟩
        exact ⟨r, rfl, rfl⟩
      · rintro ⟨r, rfl, rfl⟩
        exact ⟨rfl, r, rfl⟩

theorem isPre_append_self (a r : List Char) : isPre a (a ++ r) = true :=
  isPre_iff.mpr ⟨r, rfl⟩

/-- A list that is both whitespace-free at its two ends is untouched by
trim. -/
theorem trimChars_eq_self {l : List Char}
    (h1 : ∀ x, l.head? = some x → isWsCh x = false)
    (h2 : ∀ x, l.reverse.head? = some x → isWsCh x = false) :
    trimChars l = l := by
  unfold trimChars
  have hd : l.dropWhile isWsCh = l := by
    cases l with
    | nil => rfl
    | cons c t => exact dropWhile_cons_neg t (h1 c rfl)
  rw [hd]
  have hr : l.reverse.dropWhile isWsCh = l.reverse := by
    cases hrev : l.reverse with
    | nil => rfl
    | cons c t => exact dropWhile_cons_neg t (h2 c (by rw [hrev]; rfl))
  rw [hr, List.reverse_reverse]

/-- A list headed by a non-digit character fails the ISO pattern. -/
theorem matchIso_false_of_head {l : List Char} {c : Char} (h : l.head? = some c)
    (hc : isDigitCh c = false) : matchIso l = false := by
  unfold matchIso
  split
  next a b d e f g i j k m =>
    simp only [List.head?_cons, Option.some.injEq] at h
    subst h
    simp [hc]
  next => rfl

/-- In a list of uniformly-valued partial results, `findSome?` returns the
common value as soon as one element produces it. -/
theorem findSome_of_uniform {α β : Type} {p : α → Option β} {v : β} :
    ∀ l : List α, (∀ e ∈ l, p e = none ∨ p e = some v) →
    (∃ e ∈ l, p e = some v) → l.findSome? p = some v
  | [], _, hex => by simp at hex
  | e :: t, hall, hex => by
    rw [List.findSome?_cons]
    cases hpe : p e with
    | some w =>
      rcases hall e (List.mem_cons_self e t) with h | h
      · exact absurd hpe (h ▸ by simp)
      · rw [hpe] at h
        exact h
    | none =>
      rcases hex with ⟨e2, he2, hpe2⟩
      rcases List.mem_cons.mp he2 with rfl | he2t
      · exact absurd hpe (hpe2 ▸ by simp)
      · exact findSome_of_uniform t
          (fun x hx => hall x (List.mem_cons_of_mem e hx)) ⟨e2, he2t, hpe2⟩

/-- The regex continuation succeeds on optional whitespace, one or two day
digits and an ordinal suffix, capturing exactly the day digits. -/
theorem dayCont_pattern {wsL dayL sufL : List Char}
    (hws : ∀ c ∈ wsL, isWsCh c = true) (hday : dayL ≠ [])
    (hlen : dayL.length ≤ 2) (hd : ∀ c ∈ dayL, isDigitCh c = true)
    (hsuf : ordSufOk sufL = true) :
    dayCont (wsL ++ (dayL ++ sufL)) = some dayL := by
  have h1 : (wsL ++ (dayL ++ sufL)).dropWhile isWsCh = dayL ++ sufL := by
    rw [dropWhile_app_all _ hws]
    cases dayL with
    | nil => exact absurd rfl hday
    | cons c t =>
      exact dropWhile_cons_neg _ (digit_not_ws (hd c (List.mem_cons_self c t)))
  have hsufcases : sufL = [] ∨ sufL = ['s', 't'] ∨ sufL = ['n', 'd']
      ∨ sufL = ['r', 'd'] ∨ sufL = ['t', 'h'] := by
    have h2 := hsuf
    simp only [ordSufOk, Bool.or_eq_true, decide_eq_true_eq] at h2
    tauto
  have h2 : (dayL ++ sufL).takeWhile isDigitCh = dayL := by
    rw [takeWhile_app_all _ hd]
    have hz : sufL.takeWhile isDigitCh = [] := by
      rcases hsufcases with h | h | h | h | h <;> subst h <;> rfl
    rw [hz, List.append_nil]
  have h3 : (dayL ++ sufL).dropWhile isDigitCh = sufL := by
    rw [dropWhile_app_all _ hd]
    rcases hsufcases with h | h | h | h | h <;> subst h <;> rfl
  have hlen1 : dayL.length = 1 ∨ dayL.length = 2 := by
    have := List.length_pos.mpr hday
    omega
  unfold dayCont
  simp only [h1, h2, h3, hsuf, Bool.and_true]
  rcases hlen1 with h | h <;> simp [h]

/-- The regex continuation fails when it starts with a letter: no day
digits can be taken. -/
theorem dayCont_head_lower {c : Char} {t : List Char} (hc : isLowerCh c = true) :
    dayCont (c :: t) = none := by
  unfold dayCont
  simp only [dropWhile_cons_neg _ (lower_not_ws hc),
    takeWhile_cons_neg _ (lower_not_digit hc)]
  rfl

/-- The table alternative carrying the month name at the head of the input
succeeds and captures the day digits. -/
theorem tryAlt_self {name mm : String} {wsL dayL sufL : List Char}
    (hws : ∀ c ∈ wsL, isWsCh c = true) (hday : dayL ≠ [])
    (hlen : dayL.length ≤ 2) (hd : ∀ c ∈ dayL, isDigitCh c = true)
    (hsuf : ordSufOk sufL = true) :
    tryAlt (name.data ++ (wsL ++ (dayL ++ sufL))) (name, mm) = some (mm, dayL) := by
  unfold tryAlt
  simp only [isPre_append_self, if_true, List.drop_left,
    dayCont_pattern hws hday hlen hd hsuf, Option.map_some']

/-- Every table alternative other than the month name heading the input
fails: a shorter alternative leaves a letter of the name in front of the
day digits, and a longer one would need a letter where the input has
whitespace or a digit. -/
theorem tryAlt_ne {p : String × String} {name mm : String}
    {wsL dayL sufL : List Char}
    (hp : p ∈ monthTable) (hmem : (name, mm) ∈ monthTable) (hne : p.1 ≠ name)
    (hws : ∀ c ∈ wsL, isWsCh c = true) (hday : dayL ≠ [])
    (hd : ∀ c ∈ dayL, isDigitCh c = true) :
    tryAlt (name.data ++ (wsL ++ (dayL ++ sufL))) p = none := by
  have tblAlpha : ∀ q ∈ monthTable, q.1.data ≠ []
      ∧ ∀ c ∈ q.1.data, isLowerCh c = true := by decide
  unfold tryAlt
  by_cases hpre : isPre p.1.data (name.data ++ (wsL ++ (dayL ++ sufL))) = true
  swap
  · simp [hpre]
  rw [if_pos hpre]
  obtain ⟨r, hr⟩ := isPre_iff.mp hpre
  have hptake : p.1.data
      = (name.data ++ (wsL ++ (dayL ++ sufL))).take p.1.data.length := by
    rw [hr, List.take_left]
  rcases le_or_lt p.1.data.length name.data.length with hle | hgt
  · have hne2 : p.1.data.length ≠ name.data.length := by
      intro heq
      apply hne
      have : p.1.data = name.data := by
        rw [hptake, List.take_append_of_le_length hle, heq, List.take_length]
      exact congrArg String.mk this
    have hlt : p.1.data.length < name.data.length := Nat.lt_of_le_of_ne hle hne2
    have hdrop : (name.data ++ (wsL ++ (dayL ++ sufL))).drop p.1.data.length
        = name.data.drop p.1.data.length ++ (wsL ++ (dayL ++ sufL)) :=
      List.drop_append_of_le_length hle
    rcases hnd : name.data.drop p.1.data.length with _ | ⟨c, t⟩
    · exfalso
      have := congrArg List.length hnd
      rw [List.length_drop] at this
      simp only [List.length_nil] at this
      omega
    · have hc : isLowerCh c = true := by
        refine (tblAlpha (name, mm) hmem).2 c ?_
        have : c ∈ name.data.drop p.1.data.length := by
          rw [hnd]
          exact List.mem_cons_self c t
        exact List.drop_subset _ _ this
      rw [hdrop, hnd, List.cons_append, dayCont_head_lower hc]
      rfl
  · exfalso
    obtain ⟨x, R2, hxR, hx⟩ : ∃ x R2, wsL ++ (dayL ++ sufL) = x :: R2
        ∧ isLowerCh x = false := by
      cases wsL with
      | nil =>
        cases hdl : dayL with
        | nil => exact absurd hdl hday
        | cons c t =>
          exact ⟨c, t ++ sufL, by simp,
            digit_not_lower (hd c (hdl ▸ List.mem_cons_self c t))⟩
      | cons w t =>
        exact ⟨w, t ++ (dayL ++ sufL), by simp,
          ws_not_lower (hws w (List.mem_cons_self w t))⟩
    obtain ⟨k, hk⟩ : ∃ k, p.1.data.length - name.data.length = k + 1 :=
      ⟨p.1.data.length - name.data.length - 1, by omega⟩
    have hsplit : p.1.data = name.data ++ (x :: R2.take k) := by
      rw [hptake, List.take_append_eq_append_take,
        List.take_of_length_le (by omega), hxR, hk, List.take_succ_cons]
    have hxp : x ∈ p.1.data := by
      rw [hsplit]
      exact List.mem_append_right _ (List.mem_cons_self x _)
    exact absurd ((tblAlpha p hp).2 x hxp) (by rw [hx]; decide)

/-- The month-name regex on an input of month name, optional whitespace,
one or two day digits and an optional ordinal suffix returns the table's
month number and the day digits. -/
theorem matchMonthDay_pattern {name mm : String} {wsL dayL sufL : List Char}
    (hmem : (name, mm) ∈ monthTable)
    (hws : ∀ c ∈ wsL, isWsCh c = true) (hday : dayL ≠ [])
    (hlen : dayL.length ≤ 2) (hd : ∀ c ∈ dayL, isDigitCh c = true)
    (hsuf : ordSufOk sufL = true) :
    matchMonthDay ⟨name.data ++ (wsL ++ (dayL ++ sufL))⟩ = some (mm, dayL) := by
  unfold matchMonthDay
  apply findSome_of_uniform
  · intro e he
    by_cases hcase : e.1 = name
    · right
      have uniq : ∀ a ∈ monthTable, ∀ b ∈ monthTable, a.1 = b.1 → a.2 = b.2 := by
        decide
      have he2 : e = (name, mm) :=
        Prod.ext hcase (uniq e he (name, mm) hmem hcase)
      rw [he2]
      exact tryAlt_self hws hday hlen hd hsuf
    · left
      exact tryAlt_ne he hmem hcase hws hday hd
  · exact ⟨(name, mm), hmem, tryAlt_self hws hday hlen hd hsuf⟩

/-- A whitespace-free tail keeps the reversed head across a left append. -/
theorem head_rev_app {a b : List Char} (hb : b ≠ [])
    (h : ∀ x, b.reverse.head? = some x → isWsCh x = false) :
    ∀ x, (a ++ b).reverse.head? = some x → isWsCh x = false := by
  intro x hx
  rw [List.reverse_append] at hx
  rcases hbr : b.reverse with _ | ⟨c, t⟩
  · exact absurd (by simpa using congrArg List.reverse hbr) hb
  · rw [hbr] at hx
    simp only [List.cons_append, List.head?_cons, Option.some.injEq] at hx
    subst hx
    exact h c (by rw [hbr]; rfl)

/-! ## Theorems -/

/-- C1, counterexample.  When the scraper process cannot be started the
route answers 200 with the literal fallback object, whose body carries an
empty flights list and an error annotation but neither a `total_results`
count nor a `search_params` echo — so the delivered result is not always the
well-formed structure with a `total_results` count and `search_params` that
the claim asserts. -/
theorem claim_C1_cex :
    handlePost (some "Glasgow") (some "Chennai") (some "2025-09-25") none none
        .startFailed = (200, spawnFallback)
    ∧ bodyGet "flights" spawnFallback = some (.arr [])
    ∧ bodyGet "total_results" spawnFallback = none
    ∧ bodyGet "search_params" spawnFallback = none :=
  ⟨rfl, rfl, rfl, rfl⟩

/-- C1, amended.  For every validated request: every response body has a
list-valued flights field; unparseable scraper output yields the demo body
tagged with a note; output parsed to a non-null value whose flights field is
missing or not list-shaped is re-wrapped; and a process-start failure yields
the zero-offer, error-annotated literal object — which carries no
`total_results` and no `search_params`. -/
theorem claim_C1_amended (o d dep : String) (ret : Option String) (p : Option Nat)
    (ho : o ≠ "") (hd : d ≠ "") (hdep : dep ≠ "") :
    (∀ lk, ∃ xs : List Json,
       bodyGet "flights" (handlePost (some o) (some d) (some dep) ret p lk).2
         = some (.arr xs))
    ∧ (handlePost (some o) (some d) (some dep) ret p (.parsedOutput none)
         = (200, demoBody o d dep ret p)
       ∧ bodyGet "note" (demoBody o d dep ret p)
         = some (.str "Demo results - real flight search is being configured"))
    ∧ (∀ j fv, jsGet j "flights" = some fv → (truthyOpt fv && isArrOpt fv) = false →
         handlePost (some o) (some d) (some dep) ret p (.parsedOutput (some j))
           = (200, rewrapBody j o d dep ret p))
    ∧ (handlePost (some o) (some d) (some dep) ret p .startFailed
         = (200, spawnFallback)
       ∧ bodyGet "flights" spawnFallback = some (.arr [])
       ∧ bodyGet "error" spawnFallback = some (.str "Python environment not available")
       ∧ bodyGet "total_results" spawnFallback = none) := by
  have hguard : (o = "" || d = "" || dep = "") = false := by
    simp [ho, hd, hdep]
  refine ⟨?_, ?_, ?_, ?_⟩
  · intro lk
    cases lk with
    | startFailed =>
      exact ⟨[], by simp [handlePost, hguard, normalizeParsed, spawnFallback,
        jsGet, getLast, truthyOpt, truthy, isArrOpt, bodyGet]⟩
    | exitNonzero =>
      exact ⟨[], by simp [handlePost, hguard, resp500, bodyGet, getLast]⟩
    | parsedOutput parse =>
      cases parse with
      | none =>
        exact ⟨[mockFlight o d], by
          simp [handlePost, hguard, demoBody, bodyGet, getLast]⟩
      | some j =>
        cases j with
        | null => exact ⟨[], by simp [handlePost, hguard, normalizeParsed, jsGet,
            resp500, bodyGet, getLast]⟩
        | obj fields =>
          by_cases hcond : (truthyOpt (getLast "flights" fields)
              && isArrOpt (getLast "flights" fields)) = true
          · obtain ⟨xs, hxs⟩ : ∃ xs, getLast "flights" fields = some (.arr xs) := by
              rcases hfv : getLast "flights" fields with _ | fv
              · rw [hfv] at hcond; simp [truthyOpt] at hcond
              · rcases fv with _ | b | n | s | xs | l <;>
                  simp_all [truthyOpt, isArrOpt]
            exact ⟨xs, by
              simp [handlePost, hguard, normalizeParsed, jsGet, hxs, truthyOpt,
                truthy, isArrOpt, bodyGet]⟩
          · exact ⟨[], by
              simp only [Bool.not_eq_true] at hcond
              simp [handlePost, hguard, normalizeParsed, jsGet, hcond,
                rewrapBody, bodyGet, getLast]⟩
        | bool b =>
          exact ⟨[], by simp [handlePost, hguard, normalizeParsed, jsGet, truthyOpt,
            isArrOpt, rewrapBody, bodyGet, getLast]⟩
        | num n =>
          exact ⟨[], by simp [handlePost, hguard, normalizeParsed, jsGet, truthyOpt,
            isArrOpt, rewrapBody, bodyGet, getLast]⟩
        | str s =>
          exact ⟨[], by simp [handlePost, hguard, normalizeParsed, jsGet, truthyOpt,
            isArrOpt, rewrapBody, bodyGet, getLast]⟩
        | arr xs =>
          exact ⟨xs, by simp [handlePost, hguard, normalizeParsed, jsGet, truthyOpt,
            isArrOpt, rewrapBody, bodyGet, getLast]⟩
  · exact ⟨by simp [handlePost, hguard], by simp [demoBody, bodyGet, getLast]⟩
  · intro j fv hfv hcond
    simp [handlePost, hguard, normalizeParsed, hfv, hcond]
  · refine ⟨?_, rfl, rfl, rfl⟩
    simp [handlePost, hguard, normalizeParsed, spawnFallback, jsGet, getLast,
      truthyOpt, truthy, isArrOpt]

/-- C1, witness for the amended theorem at a concrete request: the scraper
output parses to an object without a list-shaped flights field and gets
re-wrapped. -/
theorem claim_C1_amended_witness :
    handlePost (some "Glasgow") (some "Chennai") (some "2025-09-25") none none
        (.parsedOutput (some (.obj [("status", .str "ok")])))
      = (200, rewrapBody (.obj [("status", .str "ok")]) "Glasgow" "Chennai"
          "2025-09-25" none none) :=
  (claim_C1_amended "Glasgow" "Chennai" "2025-09-25" none none
      (by decide) (by decide) (by decide)).2.2.1
    (.obj [("status", .str "ok")]) none rfl rfl

/-- C7: a request body missing origin, destination or departureDate is
answered 400 with the fixed error message naming the required parameters,
independently of the scraper (which is therefore never consulted for the
response); and the internal-failure path (the promise rejection of a
nonzero scraper exit reaching the outer catch) is answered 500 with an
error field and an empty flights list. -/
theorem claim_C7 :
    (∀ (origin destination departureDate ret : Option String) (p : Option Nat)
       (lk : LookupOutcome),
       origin = none ∨ destination = none ∨ departureDate = none →
       handlePost origin destination departureDate ret p lk = resp400
       ∧ (∀ lk2, handlePost origin destination departureDate ret p lk2
           = handlePost origin destination departureDate ret p lk))
    ∧ resp400.1 = 400
    ∧ bodyGet "error" resp400.2
        = some (.str "Missing required parameters: origin, destination, departureDate")
    ∧ containsSub "Missing required parameters: origin, destination, departureDate"
        "origin" = true
    ∧ containsSub "Missing required parameters: origin, destination, departureDate"
        "destination" = true
    ∧ containsSub "Missing required parameters: origin, destination, departureDate"
        "departureDate" = true
    ∧ (∀ (o d dep : String) (ret : Option String) (p : Option Nat),
       o ≠ "" → d ≠ "" → dep ≠ "" →
       handlePost (some o) (some d) (some dep) ret p .exitNonzero = resp500
       ∧ resp500.1 = 500
       ∧ bodyGet "error" resp500.2 = some (.str "Internal server error")
       ∧ bodyGet "flights" resp500.2 = some (.arr [])) := by
  refine ⟨?_, rfl, rfl, by decide, by decide, by decide, ?_⟩
  · intro origin destination departureDate ret p lk h
    have : ∀ lk2 : LookupOutcome,
        handlePost origin destination departureDate ret p lk2 = resp400 := by
      intro lk2
      rcases h with h | h | h <;> subst h
      · cases destination <;> cases departureDate <;> rfl
      · cases origin <;> cases departureDate <;> rfl
      · cases origin <;> cases destination <;> rfl
    exact ⟨this lk, fun lk2 => (this lk2).trans (this lk).symm⟩
  · intro o d dep ret p ho hd hdep
    have hguard : (o = "" || d = "" || dep = "") = false := by
      simp [ho, hd, hdep]
    exact ⟨by simp [handlePost, hguard], rfl, rfl, rfl⟩

/-- C7, witness: a body with no origin is answered 400, and a validated
request whose scraper exits nonzero is answered 500 with an empty flights
list. -/
theorem claim_C7_witness :
    handlePost none (some "Chennai") (some "2025-09-25") none none .exitNonzero
      = resp400
    ∧ handlePost (some "Glasgow") (some "Chennai") (some "2025-09-25") none none
        .exitNonzero = resp500 :=
  ⟨(claim_C7.1 none (some "Chennai") (some "2025-09-25") none none .exitNonzero
      (Or.inl rfl)).1,
   (claim_C7.2.2.2.2.2.2 "Glasgow" "Chennai" "2025-09-25" none none
      (by decide) (by decide) (by decide)).1⟩

/-- C10: in the re-wrap branch (parsed output whose flights field is missing
or not an array) and in the demo-fallback branch (unparseable output), the
returned `total_results` equals the length of the returned flights array. -/
theorem claim_C10 :
    (∀ (o d dep : String) (ret : Option String) (p : Option Nat) (j : Json) fv,
       o ≠ "" → d ≠ "" → dep ≠ "" →
       jsGet j "flights" = some fv → (truthyOpt fv && isArrOpt fv) = false →
       ∃ xs : List Json,
         handlePost (some o) (some d) (some dep) ret p (.parsedOutput (some j))
           = (200, rewrapBody j o d dep ret p)
         ∧ bodyGet "flights" (rewrapBody j o d dep ret p) = some (.arr xs)
         ∧ bodyGet "total_results" (rewrapBody j o d dep ret p)
             = some (.num xs.length))
    ∧ (∀ (o d dep : String) (ret : Option String) (p : Option Nat),
       o ≠ "" → d ≠ "" → dep ≠ "" →
       ∃ xs : List Json,
         handlePost (some o) (some d) (some dep) ret p (.parsedOutput none)
           = (200, demoBody o d dep ret p)
         ∧ bodyGet "flights" (demoBody o d dep ret p) = some (.arr xs)
         ∧ bodyGet "total_results" (demoBody o d dep ret p)
             = some (.num xs.length)) := by
  constructor
  · intro o d dep ret p j fv ho hd hdep hfv hcond
    have hguard : (o = "" || d = "" || dep = "") = false := by
      simp [ho, hd, hdep]
    have hmain : handlePost (some o) (some d) (some dep) ret p
        (.parsedOutput (some j)) = (200, rewrapBody j o d dep ret p) := by
      simp [handlePost, hguard, normalizeParsed, hfv, hcond]
    cases j with
    | arr xs => exact ⟨xs, hmain, rfl, rfl⟩
    | null => exact ⟨[], hmain, rfl, rfl⟩
    | bool b => exact ⟨[], hmain, rfl, rfl⟩
    | num n => exact ⟨[], hmain, rfl, rfl⟩
    | str s => exact ⟨[], hmain, rfl, rfl⟩
    | obj fields => exact ⟨[], hmain, rfl, rfl⟩
  · intro o d dep ret p ho hd hdep
    have hguard : (o = "" || d = "" || dep = "") = false := by
      simp [ho, hd, hdep]
    exact ⟨[mockFlight o d], by simp [handlePost, hguard], rfl, rfl⟩

/-- C10, witness: the scraper returning the bare array `[true]` is re-wrapped
with `total_results` 1, and unparseable output yields the one-offer demo
body with `total_results` 1. -/
theorem claim_C10_witness :
    handlePost (some "Glasgow") (some "Chennai") (some "2025-09-25") none none
        (.parsedOutput (some (.arr [.bool true])))
      = (200, rewrapBody (.arr [.bool true]) "Glasgow" "Chennai" "2025-09-25"
          none none)
    ∧ handlePost (some "Glasgow") (some "Chennai") (some "2025-09-25") none none
        (.parsedOutput none)
      = (200, demoBody "Glasgow" "Chennai" "2025-09-25" none none) :=
  ⟨((claim_C10.1 "Glasgow" "Chennai" "2025-09-25" none none (.arr [.bool true])
      none (by decide) (by decide) (by decide) rfl rfl).choose_spec).1,
   ((claim_C10.2 "Glasgow" "Chennai" "2025-09-25" none none
      (by decide) (by decide) (by decide)).choose_spec).1⟩

/-- C6: the dialogue engine makes at most 2 completion attempts; a failure
with status 429, 401 or 403 on the first attempt is never retried; after the
final failure the returned fallback always has `isFlightDetailsComplete`
false and no flight details, with a reply that is one of the four fixed
apology strings, deterministic per failure class, none of which contains the
word "found". -/
theorem claim_C6 (call : Nat → CallResult) :
    numAttempts call ≤ 2
    ∧ (∀ e, call 1 = .err e → failFast e = true →
        numAttempts call = 1 ∧ runFlow call = fallbackOutput e)
    ∧ (∀ e1 e2, call 1 = .err e1 → failFast e1 = false → call 2 = .err e2 →
        runFlow call = fallbackOutput e2)
    ∧ (∀ e, (fallbackOutput e).isFlightDetailsComplete = false
        ∧ (fallbackOutput e).flightDetails = none
        ∧ (fallbackOutput e).reply = classReply (classifyErr e)
        ∧ containsSub (fallbackOutput e).reply "found" = false)
    ∧ (∀ e e2, classifyErr e = classifyErr e2 →
        (fallbackOutput e).reply = (fallbackOutput e2).reply) := by
  refine ⟨?_, ?_, ?_, ?_, ?_⟩
  · cases hc : call 1 with
    | ok o => simp [numAttempts, hc]
    | err e =>
      simp only [numAttempts, hc]
      split <;> omega
  · intro e h hff
    unfold numAttempts runFlow
    rw [h]
    simp [hff]
  · intro e1 e2 h1 hff h2
    unfold runFlow
    rw [h1]
    simp [hff, h2]
  · intro e
    refine ⟨rfl, rfl, rfl, ?_⟩
    show containsSub (classReply (classifyErr e)) "found" = false
    cases classifyErr e <;> decide
  · intro e e2 h
    show classReply (classifyErr e) = classReply (classifyErr e2)
    rw [h]

/-- C6, witness: a first attempt failing with status 429 is not retried and
yields the quota-class apology with `isFlightDetailsComplete` false. -/
theorem claim_C6_witness :
    numAttempts (fun _ => .err ⟨some 429, "quota exceeded"⟩) = 1
    ∧ runFlow (fun _ => .err ⟨some 429, "quota exceeded"⟩)
        = fallbackOutput ⟨some 429, "quota exceeded"⟩
    ∧ (fallbackOutput ⟨some 429, "quota exceeded"⟩).isFlightDetailsComplete = false
    ∧ containsSub (fallbackOutput ⟨some 429, "quota exceeded"⟩).reply "found"
        = false :=
  have h := claim_C6 (fun _ => .err ⟨some 429, "quota exceeded"⟩)
  have h2 := h.2.1 ⟨some 429, "quota exceeded"⟩ rfl (by decide)
  ⟨h2.1, h2.2, (h.2.2.2.1 ⟨some 429, "quota exceeded"⟩).1,
   (h.2.2.2.1 ⟨some 429, "quota exceeded"⟩).2.2.2⟩

/-- C3, counterexample.  The duration regex requires both the "h" and the
"m" literal: "5h" (minutes component absent) and "45m" (hours component
absent) do not match at all and are ranked as 0 total minutes, not as
300 or 45 as the claim's "either component may be absent, treated as 0"
reading demands. -/
theorem claim_C3_cex :
    durationMinutes "5h" = 0 ∧ durationMinutes "5h" ≠ 5 * 60 + 0
    ∧ durationMinutes "45m" = 0 ∧ durationMinutes "45m" ≠ 0 * 60 + 45 :=
  ⟨rfl, by decide, rfl, by decide⟩

/-- C3, amended.  The ranking logic parses the duration against the regex of
one-or-more hour digits, the literal "h", optional whitespace, zero-or-more
minute digits and the literal "m": only the minute digits may be absent
(treated as 0); the match value is hours times 60 plus minutes, and a
duration without the full pattern — such as "5h" alone or "45m" alone —
contributes 0 total minutes.  That total is exactly the key compared by the
fastest and best rankings. -/
theorem claim_C3_amended :
    (∀ s : String, durMatch s.data = none → durationMinutes s = 0)
    ∧ (∀ hs ws ms rest : List Char, hs ≠ [] →
        (∀ c ∈ hs, isDigitCh c = true) → (∀ c ∈ ws, isWsCh c = true) →
        (∀ c ∈ ms, isDigitCh c = true) →
        durationMinutes ⟨hs ++ 'h' :: (ws ++ (ms ++ 'm' :: rest))⟩
          = digitsVal hs * 60 + digitsVal ms)
    ∧ durationMinutes "13h 30m" = 810
    ∧ durationMinutes "5hm" = 300
    ∧ durationMinutes "5h" = 0
    ∧ durationMinutes "45m" = 0
    ∧ (∀ f : Flight, keyFn .fastest f = (durationMinutes f.duration : ℚ)
        ∧ keyFn .best f = (f.price : ℚ) / 2 + (durationMinutes f.duration : ℚ)) := by
  refine ⟨?_, ?_, by decide, by decide, rfl, rfl, fun f => ⟨rfl, rfl⟩⟩
  · intro s h
    unfold durationMinutes
    rw [h]
  · intro hs ws ms rest hhs h1 h2 h3
    have hne : hs ++ 'h' :: (ws ++ (ms ++ 'm' :: rest)) ≠ [] := by
      cases hs with
      | nil => exact absurd rfl hhs
      | cons c t => simp
    unfold durationMinutes
    rw [show (String.mk (hs ++ 'h' :: (ws ++ (ms ++ 'm' :: rest)))).data
        = hs ++ 'h' :: (ws ++ (ms ++ 'm' :: rest)) from rfl,
      durMatch_head hne (durAt_pattern hs ws ms rest hhs h1 h2 h3)]

/-- C3, witness for the amended theorem: the general pattern case evaluated
at "14h 30m". -/
theorem claim_C3_amended_witness :
    durationMinutes ⟨['1', '4'] ++ 'h' :: ([' '] ++ (['3', '0'] ++ 'm' :: []))⟩
      = digitsVal ['1', '4'] * 60 + digitsVal ['3', '0'] :=
  claim_C3_amended.2.1 ['1', '4'] [' '] ['3', '0'] []
    (by decide) (by decide) (by decide) (by decide)

/-- C5: each ranking mode stably sorts ascending by its key — price for
cheapest, total duration minutes for fastest, price over two plus duration
minutes for best: the result is a permutation, sorted for the key order,
and for every key value the tied elements keep their original relative
order.  The concrete cases: equal-price offers with 10h and 8h durations
sort under fastest with the 8h offer first; equally priced offers keep
their order under cheapest; and the 800-priced 5h offer (score 700) ranks
before the 400-priced 20h offer (score 1400) under best. -/
theorem claim_C5 :
    (∀ (m : SortMode) (l : List Flight),
       (sortFlights m l).Perm l
       ∧ (sortFlights m l).Sorted (keyRel (keyFn m))
       ∧ ∀ k : ℚ, (sortFlights m l).filter (fun f => decide (keyFn m f = k))
           = l.filter (fun f => decide (keyFn m f = k)))
    ∧ (∀ f : Flight, keyFn .cheapest f = (f.price : ℚ)
        ∧ keyFn .fastest f = (durationMinutes f.duration : ℚ)
        ∧ keyFn .best f = (f.price : ℚ) / 2 + (durationMinutes f.duration : ℚ))
    ∧ sortFlights .fastest [flightA, flightB] = [flightB, flightA]
    ∧ sortFlights .cheapest [flightA, flightB] = [flightA, flightB]
    ∧ sortFlights .best [flightD, flightC] = [flightC, flightD] := by
  refine ⟨fun m l => ⟨List.perm_insertionSort _ l, List.sorted_insertionSort _ l,
      fun k => filter_insertionSort_key (keyFn m) k l⟩,
    fun f => ⟨rfl, rfl, rfl⟩, by decide, by decide, ?_⟩
  have hC : keyFn .best flightC = 700 := by
    show (((800 : Int) : ℚ)) / 2 + ((durationMinutes "5h 00m" : Nat) : ℚ) = 700
    rw [show durationMinutes "5h 00m" = 300 from rfl]
    norm_num
  have hD : keyFn .best flightD = 1400 := by
    show (((400 : Int) : ℚ)) / 2 + ((durationMinutes "20h 00m" : Nat) : ℚ) = 1400
    rw [show durationMinutes "20h 00m" = 1200 from rfl]
    norm_num
  show ([flightD, flightC].insertionSort (keyRel (keyFn .best))) = [flightC, flightD]
  simp only [List.insertionSort, List.orderedInsert]
  rw [if_neg]
  unfold keyRel
  rw [hC, hD]
  norm_num

/-- C8: the date normalizer is idempotent on ISO-shaped input.  A string
matching the anchored four-digit-year, two-digit-month, two-digit-day
pattern is returned unchanged (lower-casing and trimming fix every digit and
hyphen), so normalizing twice equals normalizing once. -/
theorem claim_C8 (y : Nat) (jd : String → Option String) (s : String)
    (h : matchIso s.data = true) :
    parseFlexibleDate y jd s = s
    ∧ parseFlexibleDate y jd (parseFlexibleDate y jd s)
        = parseFlexibleDate y jd s := by
  have key : parseFlexibleDate y jd s = s := by
    have h2 := h
    unfold matchIso at h2
    split at h2
    next a b c d e f g h3 i j heq =>
      simp only [Bool.and_eq_true, decide_eq_true_eq] at h2
      obtain ⟨⟨⟨⟨⟨⟨⟨⟨⟨ha, hb⟩, hc⟩, hd⟩, he⟩, hf⟩, hg⟩, hh⟩, hi⟩, hj⟩ := h2
      subst he hh
      have hmap : s.data.map lowerCh = s.data := by
        rw [heq]
        simp only [List.map, lowerCh_digit ha, lowerCh_digit hb, lowerCh_digit hc,
          lowerCh_digit hd, lowerCh_digit hf, lowerCh_digit hg, lowerCh_digit hi,
          lowerCh_digit hj, show lowerCh '-' = '-' from rfl]
      have htrim : trimChars s.data = s.data := by
        rw [heq]
        unfold trimChars
        rw [dropWhile_cons_neg _ (digit_not_ws ha)]
        rw [show ([a, b, c, d, '-', f, g, '-', i, j] : List Char).reverse
            = [j, i, '-', g, f, '-', d, c, b, a] from by simp]
        rw [dropWhile_cons_neg _ (digit_not_ws hj)]
        simp
      have hclean : trimStr (lowerStr s) = s := by
        show (⟨trimChars (s.data.map lowerCh)⟩ : String) = s
        rw [hmap, htrim]
      unfold parseFlexibleDate
      simp only [hclean, h, if_true]
    next h4 =>
      simp at h2
  exact ⟨key, by rw [key]; exact key⟩

/-- C8, witness: "2025-09-25" is a fixed point of the normalizer and
normalizing it twice equals normalizing it once. -/
theorem claim_C8_witness :
    parseFlexibleDate 2025 (fun _ => none) "2025-09-25" = "2025-09-25"
    ∧ parseFlexibleDate 2025 (fun _ => none)
        (parseFlexibleDate 2025 (fun _ => none) "2025-09-25")
      = parseFlexibleDate 2025 (fun _ => none) "2025-09-25" :=
  claim_C8 2025 (fun _ => none) "2025-09-25" (by decide)

/-- C9, counterexample.  The day capture of the month-name branch is not
validated against the calendar: "feb 30" normalizes to "2025-02-30", which
is neither a valid ISO calendar date (February has at most 29 days) nor the
original string, refuting the claimed dichotomy. -/
theorem claim_C9_cex :
    parseFlexibleDate 2025 (fun _ => none) "feb 30" = "2025-02-30"
    ∧ specValidIsoDate "2025-02-30" = false
    ∧ ("2025-02-30" : String) ≠ "feb 30" :=
  ⟨by decide, by decide, by decide⟩

/-- C9, amended.  The date normalizer is total — every branch returns a
string — and, provided the rendered current year has four digit characters
and the generic date parser only returns ISO-shaped day strings, the result
either equals the original input or matches the ISO digit pattern
year-month-day; the day (and hence calendar validity) is not checked, only
its digit shape. -/
theorem claim_C9 (y : Nat) (jd : String → Option String) (s : String)
    (hy : (toString y).data.length = 4 ∧ ∀ c ∈ (toString y).data, isDigitCh c = true)
    (hjd : ∀ t r, jd t = some r → matchIso r.data = true) :
    parseFlexibleDate y jd s = s
    ∨ matchIso (parseFlexibleDate y jd s).data = true := by
  unfold parseFlexibleDate
  by_cases hiso : matchIso (trimStr (lowerStr s)).data = true
  · right
    simp [hiso]
  · rcases hm : matchMonthDay (trimStr (lowerStr s)) with _ | ⟨mm, ds⟩
    · rcases hjs : jd s with _ | r
      · left
        simp [hiso, hm, hjs]
      · right
        simpa [hiso, hm, hjs] using hjd s r hjs
    · right
      have hp := matchMonthDay_props hm
      simpa [hiso, hm] using month_result_iso hy hp.1 hp.2

/-- C9, witness: the bare day "25th" matches no branch under a generic
parser that rejects it, so it comes back unchanged. -/
theorem claim_C9_witness :
    parseFlexibleDate 2025 (fun _ => none) "25th" = "25th"
    ∨ matchIso (parseFlexibleDate 2025 (fun _ => none) "25th").data = true :=
  claim_C9 2025 (fun _ => none) "25th" ⟨by decide, by decide⟩
    (fun _ _ h => Option.noConfusion h)

/-- C2, counterexample.  The source splits on every occurrence of a
connector, not on the first: the single date "2025-09-25" contains the
connector "-", splitting on its first occurrence yields the two parts
"2025" and "09-25" which the claim then requires to be normalized into a
departure/return pair, but the code's split produces three parts, so the
raw string is kept as the departure date with no return date. -/
theorem claim_C2_cex :
    hasConnector "2025-09-25" = true
    ∧ splitConn "2025-09-25" = ["2025", "09", "25"]
    ∧ resolveDates 2025 (fun _ => none) "2025-09-25" = ("2025-09-25", none)
    ∧ resolveDatesSpecFirstSplit 2025 (fun _ => none) "2025-09-25"
        = ("2025", some "09-25")
    ∧ resolveDates 2025 (fun _ => none) "2025-09-25"
        ≠ resolveDatesSpecFirstSplit 2025 (fun _ => none) "2025-09-25" :=
  ⟨by decide, by decide, by decide, by decide, by decide⟩

/-- C2, amended.  When the combined date expression contains a connector
(" to ", " through ", or any hyphen) it is split on every occurrence of the
connector regex; if exactly two parts result each is trimmed and normalized
independently, and any other number of parts leaves the whole raw
expression as the departure date with no return date; with no connector the
whole expression is normalized as the departure date.  In particular
"sep25 to oct2" yields departure 2025-09-25 and return 2025-10-02 in year
2025. -/
theorem claim_C2_amended :
    (∀ (y : Nat) (jd : String → Option String) (dates : String),
      (hasConnector dates = false →
        resolveDates y jd dates = (parseFlexibleDate y jd dates, none))
      ∧ (∀ a b, hasConnector dates = true → splitConn dates = [a, b] →
          resolveDates y jd dates
            = (parseFlexibleDate y jd (trimStr a),
               some (parseFlexibleDate y jd (trimStr b))))
      ∧ (hasConnector dates = true → (∀ a b, splitConn dates ≠ [a, b]) →
          resolveDates y jd dates = (dates, none)))
    ∧ resolveDates 2025 (fun _ => none) "sep25 to oct2"
        = ("2025-09-25", some "2025-10-02") := by
  refine ⟨fun y jd dates => ⟨?_, ?_, ?_⟩, by decide⟩
  · intro h
    simp [resolveDates, h]
  · intro a b hc hs
    simp [resolveDates, hc, hs]
  · intro hc hs
    unfold resolveDates
    rw [if_pos hc]
    rcases hsp : splitConn dates with _ | ⟨a, _ | ⟨b, _ | ⟨c, t⟩⟩⟩
    · rfl
    · rfl
    · exact absurd hsp (hs a b)
    · rfl

/-- C2, witness for the amended theorem: the connector-free expression
"sep25" resolves to its normalization with no return date. -/
theorem claim_C2_amended_witness :
    resolveDates 2025 (fun _ => none) "sep25"
      = (parseFlexibleDate 2025 (fun _ => none) "sep25", none) :=
  ((claim_C2_amended.1 2025 (fun _ => none) "sep25").1) (by decide)

/-- C4: every date expression whose lower-casing is a month name from the
table (3-letter abbreviation or full name — case-insensitivity is the
quantification over all strings with that lower-casing), optional
whitespace, a 1-2 digit day and an optional ordinal suffix normalizes to
the current year, the table's month number, and the day zero-padded to two
digits; and a bare day such as "25th" with no month name is returned
unchanged (the generic date parser rejects it). -/
theorem claim_C4 :
    (∀ (y : Nat) (jd : String → Option String) (s name mm : String)
       (wsL dayL sufL : List Char),
       (name, mm) ∈ monthTable →
       (lowerStr s).data = name.data ++ (wsL ++ (dayL ++ sufL)) →
       (∀ c ∈ wsL, isWsCh c = true) →
       dayL ≠ [] → dayL.length ≤ 2 →
       (∀ c ∈ dayL, isDigitCh c = true) →
       ordSufOk sufL = true →
       parseFlexibleDate y jd s
         = toString y ++ "-" ++ mm ++ "-" ++ padStart2 ⟨dayL⟩)
    ∧ (∀ (y : Nat) (jd : String → Option String),
        jd "25th" = none → parseFlexibleDate y jd "25th" = "25th") := by
  constructor
  · intro y jd s name mm wsL dayL sufL hmem hLdata hws hday hlen hd hsuf
    have tbl : ∀ q ∈ monthTable, q.1.data ≠ []
        ∧ ∀ c ∈ q.1.data, isLowerCh c = true := by decide
    obtain ⟨hnne, hnl⟩ := tbl (name, mm) hmem
    have hdsne : dayL ++ sufL ≠ [] := fun h => hday (List.append_eq_nil.mp h).1
    have hsufcases : sufL = [] ∨ sufL = ['s', 't'] ∨ sufL = ['n', 'd']
        ∨ sufL = ['r', 'd'] ∨ sufL = ['t', 'h'] := by
      have h2 := hsuf
      simp only [ordSufOk, Bool.or_eq_true, decide_eq_true_eq] at h2
      tauto
    have h2core : ∀ x, (dayL ++ sufL).reverse.head? = some x → isWsCh x = false := by
      rcases hsufcases with h | h | h | h | h <;> subst h
      · intro x hx
        rw [List.append_nil] at hx
        rcases hdr : dayL.reverse with _ | ⟨c, t⟩
        · rw [hdr] at hx
          exact absurd hx (by simp)
        · rw [hdr] at hx
          simp only [List.head?_cons, Option.some.injEq] at hx
          subst hx
          exact digit_not_ws
            (hd c (List.mem_reverse.mp (hdr ▸ List.mem_cons_self c t)))
      all_goals
        intro x hx
        rw [List.reverse_append] at hx
        simp only [List.reverse_cons, List.reverse_nil, List.nil_append,
          List.cons_append, List.head?_cons, Option.some.injEq] at hx
        subst hx
        decide
    have hrev : ∀ x, (name.data ++ (wsL ++ (dayL ++ sufL))).reverse.head? = some x →
        isWsCh x = false :=
      head_rev_app (fun h => hdsne (List.append_eq_nil.mp h).2)
        (head_rev_app hdsne h2core)
    rcases hnd : name.data with _ | ⟨n0, nt⟩
    · exact absurd hnd hnne
    have hn0 : isLowerCh n0 = true := hnl n0 (hnd ▸ List.mem_cons_self n0 nt)
    have hhead : (name.data ++ (wsL ++ (dayL ++ sufL))).head? = some n0 := by
      rw [hnd]
      rfl
    have htrim : trimChars (name.data ++ (wsL ++ (dayL ++ sufL)))
        = name.data ++ (wsL ++ (dayL ++ sufL)) := by
      refine trimChars_eq_self ?_ hrev
      intro x hx
      rw [hhead] at hx
      injection hx with hx
      subst hx
      exact lower_not_ws hn0
    have hclean : trimStr (lowerStr s)
        = ⟨name.data ++ (wsL ++ (dayL ++ sufL))⟩ := by
      show (⟨trimChars (lowerStr s).data⟩ : String) = _
      rw [hLdata, htrim]
    have hiso : matchIso (name.data ++ (wsL ++ (dayL ++ sufL))) = false :=
      matchIso_false_of_head hhead (lower_not_digit hn0)
    have hmonth := matchMonthDay_pattern hmem hws hday hlen hd hsuf
    simp only [parseFlexibleDate, hclean, hiso, Bool.false_eq_true, if_false,
      hmonth]
  · intro y jd h25
    have e1 : matchIso (trimStr (lowerStr "25th")).data = false := by decide
    have e2 : matchMonthDay (trimStr (lowerStr "25th")) = none := by decide
    simp only [parseFlexibleDate, e1, e2, h25, Bool.false_eq_true, if_false]

/-- C4, witness: "sep25" normalizes to "2025-09-25" in year 2025, and
"25th" comes back unchanged when the generic parser rejects it. -/
theorem claim_C4_witness :
    parseFlexibleDate 2025 (fun _ => none) "sep25" = "2025-09-25"
    ∧ parseFlexibleDate 2025 (fun _ => none) "25th" = "25th" := by
  constructor
  · have h := claim_C4.1 2025 (fun _ => none) "sep25" "sep" "09" [] ['2', '5'] []
      (by decide) (by decide) (by decide) (by decide) (by decide) (by decide)
      (by decide)
    rw [h]
    decide
  · exact claim_C4.2 2025 (fun _ => none) rfl

end FlightApp
